import Mathlib

/-!
Shallow embedding of `examples/autonomous_controller.py`: the cyclic
task-dispatch-and-incentive loop (TaskGenerator, AssignmentStrategy,
Dispatcher, Evaluator, EconomyLedger, CycleOrchestrator).

Modelling conventions:
* Python floats are modelled as rationals (`ℚ`); `round(x, 2)` is modelled by
  `round2`, rounding to the nearest multiple of 1/100 with ties going to the
  even multiple (Python's banker's rounding).
* Wall-clock timestamps (`datetime.now()`) are modelled as natural numbers
  supplied by an external clock parameter; the ISO timestamp strings stored in
  ledger transactions are irrelevant to every property proved here and are
  omitted from the `Transaction` record.
* Python dicts are modelled as insertion-ordered association lists
  (`List (String × ℚ)`); assignment to an existing key updates it in place,
  assignment to a new key appends it at the end, as CPython dicts do.
* Network effects (`requests.post`) are modelled by an environment function
  giving each dispatch its outcome; `print` calls are not modelled, except for
  the "No agents available for assignment" diagnostic emitted by `assign`,
  which is returned as an explicit message list alongside its result.
-/

namespace Flowing

/-- Round a rational to the nearest integer, ties to even
(Python's `round` tie-breaking). -/
def roundHalfEven (q : ℚ) : ℤ :=
  if q - ⌊q⌋ < 1/2 then ⌊q⌋
  else if 1/2 < q - ⌊q⌋ then ⌊q⌋ + 1
  else if 2 ∣ ⌊q⌋ then ⌊q⌋ else ⌊q⌋ + 1

/-- `round(x, 2)` from the Python source: round to 2 decimal places. -/
def round2 (q : ℚ) : ℚ :=
  (roundHalfEven (q * 100) : ℚ) / 100

/-- One entry of `Economy.transaction_history`
(`{"timestamp": ..., "type": ..., "agent_id": ..., "amount": ..., "reason": ...}`).
The timestamp string is omitted (see module docstring); `reason` is `none` for
initialization entries, which carry no `"reason"` key in the source. -/
structure Transaction where
  ttype : String
  agent_id : String
  amount : ℚ
  reason : Option String
deriving DecidableEq, Repr

/-- Lookup in an insertion-ordered association list (Python `dict` access /
`in` test). -/
def lookupB : List (String × ℚ) → String → Option ℚ
  | [], _ => none
  | (k0, v) :: rest, k => if k0 = k then some v else lookupB rest k

/-- Python `dict` assignment `m[k] = v`: update the existing key in place, or
append a new key at the end. -/
def dictSet : List (String × ℚ) → String → ℚ → List (String × ℚ)
  | [], k, v => [(k, v)]
  | (k0, v0) :: rest, k, v =>
    if k0 = k then (k, v) :: rest else (k0, v0) :: dictSet rest k v

/-- The `Economy` class: per-agent balances and the append-only transaction
log. -/
structure Economy where
  agent_balances : List (String × ℚ)
  transaction_history : List Transaction
deriving DecidableEq, Repr

/-- `Economy.__init__`. -/
def Economy.new : Economy := ⟨[], []⟩

/-- `Economy.initialize_agent`: set the balance and log an "initialization"
transaction. -/
def Economy.initialize_agent (e : Economy) (agent_id : String)
    (initial_balance : ℚ) : Economy :=
  { agent_balances := dictSet e.agent_balances agent_id initial_balance,
    transaction_history := e.transaction_history ++
      [⟨"initialization", agent_id, initial_balance, none⟩] }

/-- `Economy.add_reward`: implicitly initialize an unknown agent at balance 0,
then add `amount` to the balance and log a "reward" transaction. -/
def Economy.add_reward (e : Economy) (agent_id : String) (amount : ℚ)
    (reason : String) : Economy :=
  let e1 := if lookupB e.agent_balances agent_id = none
    then e.initialize_agent agent_id 0 else e
  { agent_balances := dictSet e1.agent_balances agent_id
      ((lookupB e1.agent_balances agent_id).getD 0 + amount),
    transaction_history := e1.transaction_history ++
      [⟨"reward", agent_id, amount, some reason⟩] }

/-- `Economy.deduct_penalty`: implicitly initialize an unknown agent at
balance 0, then subtract `amount` from the balance and log a "penalty"
transaction. -/
def Economy.deduct_penalty (e : Economy) (agent_id : String) (amount : ℚ)
    (reason : String) : Economy :=
  let e1 := if lookupB e.agent_balances agent_id = none
    then e.initialize_agent agent_id 0 else e
  { agent_balances := dictSet e1.agent_balances agent_id
      ((lookupB e1.agent_balances agent_id).getD 0 - amount),
    transaction_history := e1.transaction_history ++
      [⟨"penalty", agent_id, amount, some reason⟩] }

/-- `Economy.get_balance`: current balance, or 0 for an unknown agent. -/
def Economy.get_balance (e : Economy) (agent_id : String) : ℚ :=
  (lookupB e.agent_balances agent_id).getD 0

/-- Sum of the amounts of all transactions of type `ty` logged for `agent` in
the history `h`. -/
def txSum (h : List Transaction) (agent ty : String) : ℚ :=
  ((h.filter (fun t => t.agent_id == agent && t.ttype == ty)).map
    Transaction.amount).sum

/-- The ledger invariant of the spec: every balance recorded in the balance
map equals the initialization amount recorded for that worker plus the sum of
its logged reward amounts minus the sum of its logged penalty amounts. -/
def ledgerInvariant (e : Economy) : Prop :=
  ∀ a b, lookupB e.agent_balances a = some b →
    b = txSum e.transaction_history a "initialization" +
        txSum e.transaction_history a "reward" -
        txSum e.transaction_history a "penalty"

/-- One `Economy` operation, for quantifying over operation sequences. -/
inductive EconOp where
  | init (agent : String) (amount : ℚ)
  | reward (agent : String) (amount : ℚ) (reason : String)
  | penalty (agent : String) (amount : ℚ) (reason : String)
deriving DecidableEq, Repr

/-- Apply one `Economy` operation. -/
def applyOp (e : Economy) : EconOp → Economy
  | .init a amt => e.initialize_agent a amt
  | .reward a amt r => e.add_reward a amt r
  | .penalty a amt r => e.deduct_penalty a amt r

/-- Apply a sequence of `Economy` operations in order. -/
def runOps (e : Economy) : List EconOp → Economy
  | [] => e
  | op :: ops => runOps (applyOp e op) ops

/-- An operation is legal when it does not re-initialize a worker already
present in the balance map.  `add_reward` and `deduct_penalty` are always
legal; every operation sequence produced by controller cycles is legal, since
`initialize_agent` is only called at construction (and implicitly, on agents
absent from the map). -/
def legalOp (e : Economy) : EconOp → Bool
  | .init a _ => (lookupB e.agent_balances a) = none
  | _ => true

/-- A sequence of operations is legal when each step is legal in the state it
is applied to. -/
def legalOps : Economy → List EconOp → Bool
  | _, [] => true
  | e, op :: ops => legalOp e op && legalOps (applyOp e op) ops

/-- The `Task` class.  `created_at` (a wall-clock timestamp never read by the
core) is omitted. -/
structure Task where
  task_id : String
  description : String
  complexity : ℚ
  reward : ℚ
  status : String
deriving DecidableEq, Repr

/-- The `AgentAssignment` class.  Timestamps are modelled as naturals; the
opaque result payload is either a response body stored verbatim or an
`{"error": msg}` object. -/
inductive ResultPayload where
  | body (s : String)
  | error (msg : String)
deriving DecidableEq, Repr

/-- `AgentAssignment` fields, as set by `__init__` and later mutated by the
dispatcher. -/
structure AgentAssignment where
  agent_id : String
  agent_url : String
  task : Task
  assigned_at : ℕ
  completed_at : Option ℕ
  result : Option ResultPayload
  success : Bool
deriving DecidableEq, Repr

/-- `AgentAssignment.__init__(agent_id, agent_url, task)` at wall-clock time
`now`: `completed_at = None`, `result = None`, `success = False`. -/
def AgentAssignment.new (agent_id agent_url : String) (task : Task)
    (now : ℕ) : AgentAssignment :=
  ⟨agent_id, agent_url, task, now, none, none, false⟩

/-- Decimal digit character (`0`–`9`), as produced by Python's decimal
formatting of a nonnegative integer. -/
def decDigit (n : ℕ) : Char :=
  if n = 0 then '0' else if n = 1 then '1' else if n = 2 then '2'
  else if n = 3 then '3' else if n = 4 then '4' else if n = 5 then '5'
  else if n = 6 then '6' else if n = 7 then '7' else if n = 8 then '8'
  else '9'

/-- Decimal rendering of a natural number, most significant digit first, with
an accumulator (the digits of `n` are prepended to `acc`). -/
def natToDecAux (n : ℕ) (acc : List Char) : List Char :=
  if h : n < 10 then decDigit n :: acc
  else natToDecAux (n / 10) (decDigit (n % 10) :: acc)
termination_by n
decreasing_by exact Nat.div_lt_self (by omega) (by omega)

/-- Decimal rendering of a natural number (the digit list of Python's
`f"{n}"`). -/
def natToDec (n : ℕ) : List Char := natToDecAux n []

/-- Python `f"{n}"` for a natural number. -/
def natToStr (n : ℕ) : String := String.mk (natToDec n)

/-- `f"task_{cycle_count}_{i}"` from `generate_tasks`. -/
def taskId (cycle_count i : ℕ) : String :=
  "task_" ++ natToStr cycle_count ++ "_" ++ natToStr i

/-- `AutonomousController.generate_tasks`, with the environment made
explicit: `draws i` is the value of `random.uniform(0.1, 1.0)` for the `i`-th
task and `descs i` its `random.choice(task_descriptions)`. -/
def generate_tasks (cycle_count num_tasks : ℕ) (draws : ℕ → ℚ)
    (descs : ℕ → String) : List Task :=
  (List.range num_tasks).map (fun i =>
    let complexity := round2 (draws i)
    { task_id := taskId cycle_count i,
      description := descs i,
      complexity := complexity,
      reward := round2 (complexity * 50),
      status := "pending" })

/-- The loop body of `AutonomousController.assign`, recursing over the tasks
with the running `enumerate` index `idx`; `clock i` is the `datetime.now()`
value when the assignment of the task at index `i` is created. -/
def assignFrom (agents : List (String × String)) (clock : ℕ → ℕ) :
    ℕ → List Task → List AgentAssignment
  | _, [] => []
  | idx, t :: ts =>
    let w := (agents.getD (idx % agents.length) ("", ""))
    AgentAssignment.new w.1 w.2 t (clock idx) ::
      assignFrom agents clock (idx + 1) ts

/-- `AutonomousController.assign`: the produced assignment list together with
the diagnostic messages it prints (only the "no agents" diagnostic is
modelled). -/
def assignPair (agents : List (String × String)) (clock : ℕ → ℕ)
    (tasks : List Task) : List AgentAssignment × List String :=
  if agents = [] then ([], ["No agents available for assignment"])
  else (assignFrom agents clock 0 tasks, [])

/-- The assignment list returned by `AutonomousController.assign`. -/
def assignTasks (agents : List (String × String)) (clock : ℕ → ℕ)
    (tasks : List Task) : List AgentAssignment :=
  (assignPair agents clock tasks).1

/-- Outcome of one `requests.post` dispatch, as classified by the `except`
clauses of `AutonomousController.execute`: a parsed 2xx response body, a
`requests.exceptions.Timeout`, a `requests.exceptions.ConnectionError`, or
any other exception with its message `str(e)`. -/
inductive DispatchOutcome where
  | ok (body : String)
  | timeout
  | connError
  | otherError (msg : String)
deriving DecidableEq, Repr

/-- One iteration of the dispatch loop of `AutonomousController.execute`:
mutate the assignment according to the outcome.  Only the success branch sets
`completed_at` (to `datetime.now()`, modelled by `now`). -/
def dispatchOne (a : AgentAssignment) (o : DispatchOutcome) (now : ℕ) :
    AgentAssignment :=
  match o with
  | .ok body =>
    { a with result := some (.body body), success := true,
             completed_at := some now }
  | .timeout =>
    { a with success := false, result := some (.error "timeout") }
  | .connError =>
    { a with success := false, result := some (.error "connection_error") }
  | .otherError msg =>
    { a with success := false, result := some (.error msg) }

/-- The loop of `AutonomousController.execute` over the batch, with the
running index made explicit: the dispatch of the assignment at index `i`
resolves to `env i` at wall-clock time `eclock i`. -/
def executeFrom (env : ℕ → DispatchOutcome) (eclock : ℕ → ℕ) :
    ℕ → List AgentAssignment → List AgentAssignment
  | _, [] => []
  | i, a :: rest => dispatchOne a (env i) (eclock i) ::
      executeFrom env eclock (i + 1) rest

/-- `AutonomousController.execute`. -/
def execute (env : ℕ → DispatchOutcome) (eclock : ℕ → ℕ)
    (assignments : List AgentAssignment) : List AgentAssignment :=
  executeFrom env eclock 0 assignments

/-- The evaluation summary dict of `AutonomousController.evaluate` (the
timestamp entry is omitted). -/
structure Evaluation where
  total_tasks : ℕ
  successful : ℕ
  failed : ℕ
  success_rate : ℚ
deriving DecidableEq, Repr

/-- `AutonomousController.evaluate`. -/
def evaluate (assignments : List AgentAssignment) : Evaluation :=
  let total_tasks := assignments.length
  let successful := (assignments.filter (fun a => a.success)).length
  let failed := total_tasks - successful
  let success_rate : ℚ :=
    if total_tasks > 0 then (successful : ℚ) / (total_tasks : ℚ) * 100 else 0
  { total_tasks := total_tasks, successful := successful, failed := failed,
    success_rate := round2 success_rate }

/-- One iteration of the loop of `AutonomousController.update_economy`:
reward the full task reward on success, deduct `round(task_reward * 0.1, 2)`
on failure. -/
def updateEconomyStep (eco : Economy) (a : AgentAssignment) : Economy :=
  if a.success then
    eco.add_reward a.agent_id a.task.reward
      ("completed_task_" ++ a.task.task_id)
  else
    eco.deduct_penalty a.agent_id (round2 (a.task.reward * (0.1 : ℚ)))
      ("failed_task_" ++ a.task.task_id)

/-- `AutonomousController.update_economy`. -/
def update_economy (eco : Economy) (assignments : List AgentAssignment) :
    Economy :=
  assignments.foldl updateEconomyStep eco

/-- The state of an `AutonomousController`: the registered worker map, the
economy, the cumulative histories, the cycle counter, and the state of the
`random` module consumed by `generate_tasks` (never read by `assign`). -/
structure Controller where
  agents : List (String × String)
  economy : Economy
  task_history : List Task
  assignment_history : List AgentAssignment
  cycle_count : ℕ
  rng : ℕ
deriving DecidableEq, Repr

/-- The `assign` method at controller level: produces the assignment list and
appends it to `assignment_history`; reads `self.agents` only. -/
def Controller.assign (c : Controller) (clock : ℕ → ℕ) (tasks : List Task) :
    Controller × List AgentAssignment :=
  let as := assignTasks c.agents clock tasks
  ({ c with assignment_history := c.assignment_history ++ as }, as)

/-- `AutonomousController.run_cycle`, with the random draws, description
choices, dispatch outcomes and clocks supplied by the environment.  Returns
the new controller state, the evaluation summary, and the diagnostic
messages of the assignment phase. -/
def run_cycle (c : Controller) (num_tasks : ℕ) (draws : ℕ → ℚ)
    (descs : ℕ → String) (aclock : ℕ → ℕ) (env : ℕ → DispatchOutcome)
    (eclock : ℕ → ℕ) : Controller × Evaluation × List String :=
  let cycle_count := c.cycle_count + 1
  let tasks := generate_tasks cycle_count num_tasks draws descs
  let assignments := (assignPair c.agents aclock tasks).1
  let msgs := (assignPair c.agents aclock tasks).2
  let results := execute env eclock assignments
  let evaluation := evaluate results
  let economy := update_economy c.economy results
  ({ c with cycle_count := cycle_count,
            task_history := c.task_history ++ tasks,
            assignment_history := c.assignment_history ++ assignments,
            economy := economy },
   evaluation, msgs)


/-! ### Association-list lemmas -/

theorem lookupB_dictSet_self (m : List (String × ℚ)) (k : String) (v : ℚ) :
    lookupB (dictSet m k v) k = some v := by
  induction m with
  | nil => simp [dictSet, lookupB]
  | cons p rest ih =>
    obtain ⟨k0, v0⟩ := p
    by_cases h : k0 = k
    · simp [dictSet, lookupB, h]
    · simp [dictSet, lookupB, h, ih]

theorem lookupB_dictSet_ne (m : List (String × ℚ)) (k k2 : String) (v : ℚ)
    (h : k2 ≠ k) : lookupB (dictSet m k v) k2 = lookupB m k2 := by
  induction m with
  | nil => simp [dictSet, lookupB, Ne.symm h]
  | cons p rest ih =>
    obtain ⟨k0, v0⟩ := p
    by_cases h0 : k0 = k
    · subst h0
      simp [dictSet, lookupB, Ne.symm h]
    · simp [dictSet, lookupB, h0, ih]

/-! ### Effect of each `Economy` operation on balances -/

theorem get_balance_initialize_self (e : Economy) (a : String) (amt : ℚ) :
    (e.initialize_agent a amt).get_balance a = amt := by
  simp [Economy.initialize_agent, Economy.get_balance, lookupB_dictSet_self]

theorem get_balance_initialize_ne (e : Economy) (a a2 : String) (amt : ℚ)
    (h : a2 ≠ a) : (e.initialize_agent a amt).get_balance a2 =
      e.get_balance a2 := by
  simp [Economy.initialize_agent, Economy.get_balance, lookupB_dictSet_ne _ _ _ _ h]

theorem get_balance_add_reward_self (e : Economy) (a : String) (amt : ℚ)
    (r : String) :
    (e.add_reward a amt r).get_balance a = e.get_balance a + amt := by
  rcases hl : lookupB e.agent_balances a with _ | b
  · simp [Economy.add_reward, Economy.initialize_agent, Economy.get_balance,
      hl, lookupB_dictSet_self]
  · simp [Economy.add_reward, Economy.get_balance, hl, lookupB_dictSet_self]

theorem get_balance_add_reward_ne (e : Economy) (a a2 : String) (amt : ℚ)
    (r : String) (h : a2 ≠ a) :
    (e.add_reward a amt r).get_balance a2 = e.get_balance a2 := by
  rcases hl : lookupB e.agent_balances a with _ | b
  · simp [Economy.add_reward, Economy.initialize_agent, Economy.get_balance,
      hl, lookupB_dictSet_ne _ _ _ _ h]
  · simp [Economy.add_reward, Economy.get_balance, hl,
      lookupB_dictSet_ne _ _ _ _ h]

theorem get_balance_deduct_penalty_self (e : Economy) (a : String) (amt : ℚ)
    (r : String) :
    (e.deduct_penalty a amt r).get_balance a = e.get_balance a - amt := by
  rcases hl : lookupB e.agent_balances a with _ | b
  · simp [Economy.deduct_penalty, Economy.initialize_agent, Economy.get_balance,
      hl, lookupB_dictSet_self]
  · simp [Economy.deduct_penalty, Economy.get_balance, hl, lookupB_dictSet_self]

theorem get_balance_deduct_penalty_ne (e : Economy) (a a2 : String) (amt : ℚ)
    (r : String) (h : a2 ≠ a) :
    (e.deduct_penalty a amt r).get_balance a2 = e.get_balance a2 := by
  rcases hl : lookupB e.agent_balances a with _ | b
  · simp [Economy.deduct_penalty, Economy.initialize_agent, Economy.get_balance,
      hl, lookupB_dictSet_ne _ _ _ _ h]
  · simp [Economy.deduct_penalty, Economy.get_balance, hl,
      lookupB_dictSet_ne _ _ _ _ h]

/-! ### Effect of each `Economy` operation on the transaction log -/

theorem history_initialize_agent (e : Economy) (a : String) (amt : ℚ) :
    (e.initialize_agent a amt).transaction_history =
      e.transaction_history ++ [⟨"initialization", a, amt, none⟩] := rfl

theorem history_add_reward (e : Economy) (a : String) (amt : ℚ) (r : String) :
    (e.add_reward a amt r).transaction_history =
      e.transaction_history ++
        (if lookupB e.agent_balances a = none
         then [⟨"initialization", a, 0, none⟩] else []) ++
        [⟨"reward", a, amt, some r⟩] := by
  rcases hl : lookupB e.agent_balances a with _ | b <;>
    simp [Economy.add_reward, Economy.initialize_agent, hl]

theorem history_deduct_penalty (e : Economy) (a : String) (amt : ℚ)
    (r : String) :
    (e.deduct_penalty a amt r).transaction_history =
      e.transaction_history ++
        (if lookupB e.agent_balances a = none
         then [⟨"initialization", a, 0, none⟩] else []) ++
        [⟨"penalty", a, amt, some r⟩] := by
  rcases hl : lookupB e.agent_balances a with _ | b <;>
    simp [Economy.deduct_penalty, Economy.initialize_agent, hl]

theorem txSum_append (h1 h2 : List Transaction) (a ty : String) :
    txSum (h1 ++ h2) a ty = txSum h1 a ty + txSum h2 a ty := by
  simp [txSum, List.filter_append]

theorem txSum_single (t : Transaction) (a ty : String) :
    txSum [t] a ty =
      if t.agent_id = a ∧ t.ttype = ty then t.amount else 0 := by
  by_cases h1 : t.agent_id = a <;> by_cases h2 : t.ttype = ty <;>
    simp [txSum, List.filter_singleton, h1, h2]


theorem txSum_eq_zero (h : List Transaction) (a ty : String)
    (hn : ∀ t ∈ h, t.agent_id ≠ a) : txSum h a ty = 0 := by
  have : h.filter (fun t => t.agent_id == a && t.ttype == ty) = [] := by
    refine List.filter_eq_nil_iff.mpr (fun t ht => ?_)
    simp [hn t ht]
  simp [txSum, this]

theorem present_dictSet (m : List (String × ℚ)) (k a : String) (v : ℚ)
    (h : ∃ b, lookupB m a = some b) :
    ∃ b, lookupB (dictSet m k v) a = some b := by
  by_cases hk : a = k
  · subst hk; exact ⟨v, lookupB_dictSet_self m a v⟩
  · rw [lookupB_dictSet_ne m k a v hk]; exact h

/-- Every transaction in the log belongs to an agent present in the balance
map.  This holds for every reachable `Economy` state because each of the
three operations inserts its agent into the map before (or while) logging. -/
def txCovered (e : Economy) : Prop :=
  ∀ t ∈ e.transaction_history, ∃ b, lookupB e.agent_balances t.agent_id = some b

theorem initialize_preserves (e : Economy) (a : String) (amt : ℚ)
    (hc : txCovered e) (hi : ledgerInvariant e)
    (hnone : lookupB e.agent_balances a = none) :
    txCovered (e.initialize_agent a amt) ∧
      ledgerInvariant (e.initialize_agent a amt) := by
  have hno : ∀ t ∈ e.transaction_history, t.agent_id ≠ a := by
    intro t ht heq
    rcases hc t ht with ⟨b, hb⟩
    rw [heq, hnone] at hb
    exact Option.noConfusion hb
  have hbal : (e.initialize_agent a amt).agent_balances =
      dictSet e.agent_balances a amt := rfl
  constructor
  · intro t ht
    rw [history_initialize_agent] at ht
    rw [hbal]
    rcases List.mem_append.mp ht with h1 | h2
    · exact present_dictSet _ _ _ _ (hc t h1)
    · simp only [List.mem_singleton] at h2
      subst h2
      exact ⟨amt, lookupB_dictSet_self _ _ _⟩
  · intro a2 b2 hb2
    rw [hbal] at hb2
    rw [history_initialize_agent]
    by_cases ha : a2 = a
    · subst ha
      rw [lookupB_dictSet_self] at hb2
      have hz : ∀ ty, txSum e.transaction_history a2 ty = 0 :=
        fun ty => txSum_eq_zero _ _ _ hno
      injection hb2 with hb2
      subst hb2
      simp [txSum_append, txSum_single, hz]
    · rw [lookupB_dictSet_ne _ _ _ _ ha] at hb2
      have hold := hi a2 b2 hb2
      simp [txSum_append, txSum_single, Ne.symm ha, hold]

theorem add_reward_present_preserves (e : Economy) (a : String) (amt : ℚ)
    (r : String) (b : ℚ) (hb : lookupB e.agent_balances a = some b)
    (hc : txCovered e) (hi : ledgerInvariant e) :
    txCovered (e.add_reward a amt r) ∧ ledgerInvariant (e.add_reward a amt r) := by
  have hbal : (e.add_reward a amt r).agent_balances =
      dictSet e.agent_balances a (b + amt) := by
    simp [Economy.add_reward, hb]
  have hhist : (e.add_reward a amt r).transaction_history =
      e.transaction_history ++ [⟨"reward", a, amt, some r⟩] := by
    simp [Economy.add_reward, hb]
  constructor
  · intro t ht
    rw [hhist] at ht
    rw [hbal]
    rcases List.mem_append.mp ht with h1 | h2
    · exact present_dictSet _ _ _ _ (hc t h1)
    · simp only [List.mem_singleton] at h2
      subst h2
      exact ⟨b + amt, lookupB_dictSet_self _ _ _⟩
  · intro a2 b2 hb2
    rw [hbal] at hb2
    rw [hhist]
    by_cases ha : a2 = a
    · subst ha
      rw [lookupB_dictSet_self] at hb2
      have hold := hi a2 b hb
      injection hb2 with hb2
      subst hb2
      simp only [txSum_append, txSum_single]
      simp
      rw [hold]
      ring
    · rw [lookupB_dictSet_ne _ _ _ _ ha] at hb2
      have hold := hi a2 b2 hb2
      simp [txSum_append, txSum_single, Ne.symm ha, hold]

theorem deduct_penalty_present_preserves (e : Economy) (a : String) (amt : ℚ)
    (r : String) (b : ℚ) (hb : lookupB e.agent_balances a = some b)
    (hc : txCovered e) (hi : ledgerInvariant e) :
    txCovered (e.deduct_penalty a amt r) ∧
      ledgerInvariant (e.deduct_penalty a amt r) := by
  have hbal : (e.deduct_penalty a amt r).agent_balances =
      dictSet e.agent_balances a (b - amt) := by
    simp [Economy.deduct_penalty, hb]
  have hhist : (e.deduct_penalty a amt r).transaction_history =
      e.transaction_history ++ [⟨"penalty", a, amt, some r⟩] := by
    simp [Economy.deduct_penalty, hb]
  constructor
  · intro t ht
    rw [hhist] at ht
    rw [hbal]
    rcases List.mem_append.mp ht with h1 | h2
    · exact present_dictSet _ _ _ _ (hc t h1)
    · simp only [List.mem_singleton] at h2
      subst h2
      exact ⟨b - amt, lookupB_dictSet_self _ _ _⟩
  · intro a2 b2 hb2
    rw [hbal] at hb2
    rw [hhist]
    by_cases ha : a2 = a
    · subst ha
      rw [lookupB_dictSet_self] at hb2
      have hold := hi a2 b hb
      injection hb2 with hb2
      subst hb2
      simp only [txSum_append, txSum_single]
      simp
      rw [hold]
      ring
    · rw [lookupB_dictSet_ne _ _ _ _ ha] at hb2
      have hold := hi a2 b2 hb2
      simp [txSum_append, txSum_single, Ne.symm ha, hold]

theorem add_reward_absent (e : Economy) (a : String) (amt : ℚ) (r : String)
    (h : lookupB e.agent_balances a = none) :
    e.add_reward a amt r = (e.initialize_agent a 0).add_reward a amt r := by
  have h2 : lookupB (e.initialize_agent a 0).agent_balances a = some 0 :=
    lookupB_dictSet_self _ _ _
  simp [Economy.add_reward, h, h2]

theorem deduct_penalty_absent (e : Economy) (a : String) (amt : ℚ) (r : String)
    (h : lookupB e.agent_balances a = none) :
    e.deduct_penalty a amt r = (e.initialize_agent a 0).deduct_penalty a amt r := by
  have h2 : lookupB (e.initialize_agent a 0).agent_balances a = some 0 :=
    lookupB_dictSet_self _ _ _
  simp [Economy.deduct_penalty, h, h2]

theorem applyOp_preserves (e : Economy) (op : EconOp) (hc : txCovered e)
    (hi : ledgerInvariant e) (hl : legalOp e op = true) :
    txCovered (applyOp e op) ∧ ledgerInvariant (applyOp e op) := by
  cases op with
  | init a amt =>
    have hnone : lookupB e.agent_balances a = none := by
      simpa [legalOp] using hl
    exact initialize_preserves e a amt hc hi hnone
  | reward a amt r =>
    rcases hb : lookupB e.agent_balances a with _ | b
    · have heq : applyOp e (.reward a amt r) =
          (e.initialize_agent a 0).add_reward a amt r := by
        simp [applyOp, add_reward_absent e a amt r hb]
      rw [heq]
      obtain ⟨hc1, hi1⟩ := initialize_preserves e a 0 hc hi hb
      exact add_reward_present_preserves _ a amt r 0
        (lookupB_dictSet_self _ _ _) hc1 hi1
    · exact add_reward_present_preserves e a amt r b hb hc hi
  | penalty a amt r =>
    rcases hb : lookupB e.agent_balances a with _ | b
    · have heq : applyOp e (.penalty a amt r) =
          (e.initialize_agent a 0).deduct_penalty a amt r := by
        simp [applyOp, deduct_penalty_absent e a amt r hb]
      rw [heq]
      obtain ⟨hc1, hi1⟩ := initialize_preserves e a 0 hc hi hb
      exact deduct_penalty_present_preserves _ a amt r 0
        (lookupB_dictSet_self _ _ _) hc1 hi1
    · exact deduct_penalty_present_preserves e a amt r b hb hc hi

theorem runOps_preserves (ops : List EconOp) : ∀ e : Economy, txCovered e →
    ledgerInvariant e → legalOps e ops = true →
    txCovered (runOps e ops) ∧ ledgerInvariant (runOps e ops) := by
  induction ops with
  | nil => exact fun e hc hi _ => ⟨hc, hi⟩
  | cons op ops ih =>
    intro e hc hi hl
    rw [legalOps, Bool.and_eq_true] at hl
    obtain ⟨hc1, hi1⟩ := applyOp_preserves e op hc hi hl.1
    exact ih (applyOp e op) hc1 hi1 hl.2


/-- C1 counterexample: the claim quantifies over arbitrary sequences of
`Economy` operations, but re-initializing a worker already present in the
balance map resets the balance without erasing the log.  After
`initialize_agent("A", 100); add_reward("A", 10); initialize_agent("A", 100)`
the balance of `"A"` is 100 while the logged initialization amounts plus
rewards minus penalties total 210. -/
theorem ledger_invariant_counterexample :
    ¬ ledgerInvariant (runOps Economy.new
      [.init "A" 100, .reward "A" 10 "bonus", .init "A" 100]) := by
  intro h
  have h2 := h "A" 100 (by rfl)
  rw [show (runOps Economy.new
      [.init "A" 100, .reward "A" 10 "bonus", .init "A" 100]).transaction_history =
      [⟨"initialization", "A", 100, none⟩] ++ ([⟨"reward", "A", 10, some "bonus"⟩] ++
        [⟨"initialization", "A", 100, none⟩]) from rfl] at h2
  simp only [txSum_append, txSum_single] at h2
  simp at h2
  norm_num at h2

/-- C1 (amended): after any sequence of `Economy` operations in which
`initialize_agent` is never applied to a worker already present in the
balance map — which is the case for every sequence of controller cycles,
since workers are initialized exactly once at construction and implicit
initialization only targets absent workers — every balance in the map equals
the initialization amount recorded for that worker plus the sum of its
logged reward amounts minus the sum of its logged penalty amounts. -/
theorem ledger_invariant_of_legal_ops (ops : List EconOp)
    (hl : legalOps Economy.new ops = true) :
    ledgerInvariant (runOps Economy.new ops) := by
  refine (runOps_preserves ops Economy.new ?_ ?_ hl).2
  · intro t ht
    exact absurd ht (List.not_mem_nil t)
  · intro a b hb
    exact Option.noConfusion hb

/-- Witness for C1: a concrete legal operation sequence (one initialization,
one reward, one penalty) for which the theorem yields the ledger invariant. -/
theorem ledger_invariant_of_legal_ops_witness :
    legalOps Economy.new
      [.init "AgentA" 100, .reward "AgentA" 25 "completed_task_task_1_0",
       .penalty "AgentA" (5/2) "failed_task_task_1_1"] = true ∧
    ledgerInvariant (runOps Economy.new
      [.init "AgentA" 100, .reward "AgentA" 25 "completed_task_task_1_0",
       .penalty "AgentA" (5/2) "failed_task_task_1_1"]) :=
  ⟨by decide, ledger_invariant_of_legal_ops _ (by decide)⟩

/-- C10: calling `add_reward` (resp. `deduct_penalty`) for a worker id absent
from the balance map appends exactly two log entries — an "initialization"
transaction of amount 0 followed by the "reward" (resp. "penalty")
transaction of the given amount — and leaves the worker's balance equal to
the amount (resp. its negation). -/
theorem implicit_initialization_logged (e : Economy) (a : String) (amt : ℚ)
    (r r2 : String) (h : lookupB e.agent_balances a = none) :
    (e.add_reward a amt r).transaction_history =
      e.transaction_history ++
        [⟨"initialization", a, 0, none⟩, ⟨"reward", a, amt, some r⟩] ∧
    (e.add_reward a amt r).get_balance a = amt ∧
    (e.deduct_penalty a amt r2).transaction_history =
      e.transaction_history ++
        [⟨"initialization", a, 0, none⟩, ⟨"penalty", a, amt, some r2⟩] ∧
    (e.deduct_penalty a amt r2).get_balance a = -amt := by
  refine ⟨?_, ?_, ?_, ?_⟩
  · rw [history_add_reward]
    simp [h]
  · rw [get_balance_add_reward_self]
    simp [Economy.get_balance, h]
  · rw [history_deduct_penalty]
    simp [h]
  · rw [get_balance_deduct_penalty_self]
    simp [Economy.get_balance, h]

/-- Witness for C10: a fresh economy with no balance for worker "W". -/
theorem implicit_initialization_logged_witness :
    lookupB Economy.new.agent_balances "W" = none ∧
    ((Economy.new.add_reward "W" 7 "task_completion").transaction_history =
      Economy.new.transaction_history ++
        [⟨"initialization", "W", 0, none⟩, ⟨"reward", "W", 7, some "task_completion"⟩] ∧
    (Economy.new.add_reward "W" 7 "task_completion").get_balance "W" = 7 ∧
    (Economy.new.deduct_penalty "W" 7 "failed_task").transaction_history =
      Economy.new.transaction_history ++
        [⟨"initialization", "W", 0, none⟩, ⟨"penalty", "W", 7, some "failed_task"⟩] ∧
    (Economy.new.deduct_penalty "W" 7 "failed_task").get_balance "W" = -7) :=
  ⟨rfl, implicit_initialization_logged Economy.new "W" 7 "task_completion"
    "failed_task" rfl⟩

theorem updateEconomyStep_spec (e0 : Economy) (a : AgentAssignment) :
    Economy.get_balance (updateEconomyStep e0 a) a.agent_id =
      e0.get_balance a.agent_id +
        (if a.success then a.task.reward
         else -(round2 (a.task.reward * (0.1 : ℚ)))) ∧
    (updateEconomyStep e0 a).transaction_history =
      e0.transaction_history ++
        ((updateEconomyStep e0 a).transaction_history.drop
          e0.transaction_history.length) ∧
    ((updateEconomyStep e0 a).transaction_history.drop
        e0.transaction_history.length).filter (fun t => t.ttype == "reward") =
      (if a.success then
        [⟨"reward", a.agent_id, a.task.reward,
          some ("completed_task_" ++ a.task.task_id)⟩] else []) ∧
    ((updateEconomyStep e0 a).transaction_history.drop
        e0.transaction_history.length).filter (fun t => t.ttype == "penalty") =
      (if a.success then []
       else [⟨"penalty", a.agent_id, round2 (a.task.reward * (0.1 : ℚ)),
         some ("failed_task_" ++ a.task.task_id)⟩]) := by
  by_cases hs : a.success
  · have hh := history_add_reward e0 a.agent_id a.task.reward
      ("completed_task_" ++ a.task.task_id)
    rw [List.append_assoc] at hh
    have hdrop : (updateEconomyStep e0 a).transaction_history.drop
        e0.transaction_history.length =
        (if lookupB e0.agent_balances a.agent_id = none
         then [⟨"initialization", a.agent_id, 0, none⟩] else []) ++
        [⟨"reward", a.agent_id, a.task.reward,
          some ("completed_task_" ++ a.task.task_id)⟩] := by
      rw [updateEconomyStep, if_pos hs, hh, List.drop_left]
    refine ⟨?_, ?_, ?_, ?_⟩
    · rw [updateEconomyStep, if_pos hs, if_pos hs,
        get_balance_add_reward_self]
    · rw [hdrop, updateEconomyStep, if_pos hs, hh]
    · rw [hdrop, if_pos hs, List.filter_append]
      rcases hl : lookupB e0.agent_balances a.agent_id with _ | b <;>
        simp
    · rw [hdrop, if_pos hs, List.filter_append]
      rcases hl : lookupB e0.agent_balances a.agent_id with _ | b <;>
        simp
  · have hh := history_deduct_penalty e0 a.agent_id
      (round2 (a.task.reward * (0.1 : ℚ))) ("failed_task_" ++ a.task.task_id)
    rw [List.append_assoc] at hh
    have hdrop : (updateEconomyStep e0 a).transaction_history.drop
        e0.transaction_history.length =
        (if lookupB e0.agent_balances a.agent_id = none
         then [⟨"initialization", a.agent_id, 0, none⟩] else []) ++
        [⟨"penalty", a.agent_id, round2 (a.task.reward * (0.1 : ℚ)),
          some ("failed_task_" ++ a.task.task_id)⟩] := by
      rw [updateEconomyStep, if_neg hs, hh, List.drop_left]
    refine ⟨?_, ?_, ?_, ?_⟩
    · rw [updateEconomyStep, if_neg hs, if_neg hs,
        get_balance_deduct_penalty_self]
      ring
    · rw [hdrop, updateEconomyStep, if_neg hs, hh]
    · rw [hdrop, if_neg hs, List.filter_append]
      rcases hl : lookupB e0.agent_balances a.agent_id with _ | b <;>
        simp
    · rw [hdrop, if_neg hs, List.filter_append]
      rcases hl : lookupB e0.agent_balances a.agent_id with _ | b <;>
        simp

/-- C2: `update_economy` processes the resolved assignments in order; for the
assignment `a` processed after the prefix `pre`, with `B` the worker's
balance at that point: on success the balance becomes `B + R` (`R` the task
reward) and exactly one new "reward" transaction of amount `R` is appended;
on failure (any classification) the balance becomes
`B - round(R * 0.1, 2)` and exactly one new "penalty" transaction of that
amount is appended.  (When the worker is unknown, an extra "initialization"
entry precedes it — see C10 — and `B = 0`.) -/
theorem update_economy_policy (eco : Economy) (pre post : List AgentAssignment)
    (a : AgentAssignment) :
    update_economy eco (pre ++ a :: post) =
      update_economy (updateEconomyStep (update_economy eco pre) a) post ∧
    Economy.get_balance (updateEconomyStep (update_economy eco pre) a)
        a.agent_id =
      (update_economy eco pre).get_balance a.agent_id +
        (if a.success then a.task.reward
         else -(round2 (a.task.reward * (0.1 : ℚ)))) ∧
    (updateEconomyStep (update_economy eco pre) a).transaction_history =
      (update_economy eco pre).transaction_history ++
        ((updateEconomyStep (update_economy eco pre) a).transaction_history.drop
          (update_economy eco pre).transaction_history.length) ∧
    ((updateEconomyStep (update_economy eco pre) a).transaction_history.drop
        (update_economy eco pre).transaction_history.length).filter
        (fun t => t.ttype == "reward") =
      (if a.success then
        [⟨"reward", a.agent_id, a.task.reward,
          some ("completed_task_" ++ a.task.task_id)⟩] else []) ∧
    ((updateEconomyStep (update_economy eco pre) a).transaction_history.drop
        (update_economy eco pre).transaction_history.length).filter
        (fun t => t.ttype == "penalty") =
      (if a.success then []
       else [⟨"penalty", a.agent_id, round2 (a.task.reward * (0.1 : ℚ)),
         some ("failed_task_" ++ a.task.task_id)⟩]) := by
  obtain ⟨h1, h2, h3, h4⟩ := updateEconomyStep_spec (update_economy eco pre) a
  exact ⟨by simp [update_economy, List.foldl_append], h1, h2, h3, h4⟩


theorem round2_zero : round2 0 = 0 := by
  norm_num [round2, roundHalfEven]

/-- C5: `evaluate` reports `total = length`, `successful + failed = total`,
and `success_rate = round(successful / total * 100, 2)` guarded by the
`total > 0` test, with `success_rate = 0` when the batch is empty — the
division is never performed with `total = 0`. -/
theorem evaluate_totals (assignments : List AgentAssignment) :
    (evaluate assignments).total_tasks = assignments.length ∧
    (evaluate assignments).successful + (evaluate assignments).failed =
      (evaluate assignments).total_tasks ∧
    (evaluate assignments).success_rate =
      (if assignments.length = 0 then 0
       else round2 (((assignments.filter (fun a => a.success)).length : ℚ) /
         (assignments.length : ℚ) * 100)) := by
  have hle : (assignments.filter (fun a => a.success)).length ≤
      assignments.length := List.length_filter_le _ _
  refine ⟨rfl, ?_, ?_⟩
  · simpa [evaluate] using Nat.add_sub_cancel' hle
  · by_cases h0 : assignments.length = 0
    · simp [evaluate, h0, round2_zero]
    · simp [evaluate, h0, Nat.pos_of_ne_zero h0]

theorem executeFrom_length (env : ℕ → DispatchOutcome) (eclock : ℕ → ℕ) :
    ∀ (i : ℕ) (as : List AgentAssignment),
      (executeFrom env eclock i as).length = as.length := by
  intro i as
  induction as generalizing i with
  | nil => rfl
  | cons a rest ih => simp [executeFrom, ih]

theorem executeFrom_getElem (env : ℕ → DispatchOutcome) (eclock : ℕ → ℕ) :
    ∀ (as : List AgentAssignment) (i j : ℕ),
      (executeFrom env eclock i as)[j]? =
        (as[j]?).map (fun a => dispatchOne a (env (i + j)) (eclock (i + j))) := by
  intro as
  induction as with
  | nil => intro i j; simp [executeFrom]
  | cons a rest ih =>
    intro i j
    cases j with
    | zero => simp [executeFrom]
    | succ j =>
      rw [executeFrom, List.getElem?_cons_succ, List.getElem?_cons_succ, ih]
      have : i + 1 + j = i + (j + 1) := by omega
      rw [this]

/-- C4: the dispatcher returns one outcome per input assignment — the result
list has the same length and its `i`-th element is exactly the `i`-th input
assignment resolved with its own dispatch outcome, so a failure of one
dispatch never affects the processing of the others — and the `except`
classification yields `{"error": "timeout"}` with `success = false` on
timeout, `{"error": "connection_error"}` with `success = false` on an
unreachable endpoint, and `{"error": str(e)}` with `success = false` on any
other transport error. -/
theorem execute_failure_isolation (env : ℕ → DispatchOutcome)
    (eclock : ℕ → ℕ) (assignments : List AgentAssignment) :
    (execute env eclock assignments).length = assignments.length ∧
    (∀ i, (execute env eclock assignments)[i]? =
      (assignments[i]?).map (fun a => dispatchOne a (env i) (eclock i))) ∧
    (∀ (a : AgentAssignment) (now : ℕ),
      (dispatchOne a .timeout now).result = some (.error "timeout") ∧
      (dispatchOne a .timeout now).success = false) ∧
    (∀ (a : AgentAssignment) (now : ℕ),
      (dispatchOne a .connError now).result = some (.error "connection_error") ∧
      (dispatchOne a .connError now).success = false) ∧
    (∀ (a : AgentAssignment) (msg : String) (now : ℕ),
      (dispatchOne a (.otherError msg) now).result = some (.error msg) ∧
      (dispatchOne a (.otherError msg) now).success = false) := by
  refine ⟨executeFrom_length env eclock 0 assignments, ?_, ?_, ?_, ?_⟩
  · intro i
    have := executeFrom_getElem env eclock assignments 0 i
    simpa [execute] using this
  · intro a now; exact ⟨rfl, rfl⟩
  · intro a now; exact ⟨rfl, rfl⟩
  · intro a msg now; exact ⟨rfl, rfl⟩

/-- `True` exactly for a successful (2xx, parsed) dispatch outcome. -/
def DispatchOutcome.isOk : DispatchOutcome → Bool
  | .ok _ => true
  | _ => false

/-- C7 counterexample: the dispatcher does not set the completion timestamp
on failures — after a timeout the assignment's `completed_at` is still
unset, contradicting "completed_at is no longer unset once the dispatch has
resolved, for successful and failed outcomes alike". -/
theorem dispatcher_completed_at_counterexample :
    (dispatchOne (AgentAssignment.new "AgentA" "http://localhost:5000"
        ⟨"task_1_0", "Analyze data patterns", 1/2, 25, "pending"⟩ 0)
      .timeout 5).completed_at = none := rfl

/-- C7 (amended): for every outcome the dispatcher sets the result payload
and the success flag, leaving `agent_id`, `agent_url`, `task` and
`assigned_at` unchanged; the completion timestamp is set only on success —
on failures `completed_at` keeps its prior (unset) value.  Moreover each
assignment of a batch is resolved exactly once, by `dispatchOne`, in place
(`execute` maps the `i`-th input to its own resolved outcome). -/
theorem dispatcher_mutation_frame (a : AgentAssignment) (o : DispatchOutcome)
    (now : ℕ) :
    (dispatchOne a o now).agent_id = a.agent_id ∧
    (dispatchOne a o now).agent_url = a.agent_url ∧
    (dispatchOne a o now).task = a.task ∧
    (dispatchOne a o now).assigned_at = a.assigned_at ∧
    (∃ p, (dispatchOne a o now).result = some p) ∧
    (dispatchOne a o now).success = o.isOk ∧
    (dispatchOne a o now).completed_at =
      (if o.isOk then some now else a.completed_at) ∧
    (∀ (env : ℕ → DispatchOutcome) (eclock : ℕ → ℕ)
        (batch : List AgentAssignment) (i : ℕ),
      (execute env eclock batch)[i]? =
        (batch[i]?).map (fun b => dispatchOne b (env i) (eclock i))) := by
  refine ⟨?_, ?_, ?_, ?_, ?_, ?_, ?_, ?_⟩
  · cases o <;> rfl
  · cases o <;> rfl
  · cases o <;> rfl
  · cases o <;> rfl
  · cases o <;> exact ⟨_, rfl⟩
  · cases o <;> rfl
  · cases o <;> rfl
  · intro env eclock batch i
    have := executeFrom_getElem env eclock batch 0 i
    simpa [execute] using this


/-! ### Round-robin assignment lemmas -/

theorem assignTasks_eq (agents : List (String × String)) (clock : ℕ → ℕ)
    (tasks : List Task) (hA : agents ≠ []) :
    assignTasks agents clock tasks = assignFrom agents clock 0 tasks := by
  simp [assignTasks, assignPair, hA]

theorem assignFrom_length (agents : List (String × String)) (clock : ℕ → ℕ) :
    ∀ (idx : ℕ) (ts : List Task),
      (assignFrom agents clock idx ts).length = ts.length := by
  intro idx ts
  induction ts generalizing idx with
  | nil => rfl
  | cons t ts ih => simp [assignFrom, ih]

theorem assignFrom_getElem (agents : List (String × String)) (clock : ℕ → ℕ) :
    ∀ (ts : List Task) (idx j : ℕ),
      (assignFrom agents clock idx ts)[j]? = (ts[j]?).map (fun t =>
        AgentAssignment.new (agents.getD ((idx + j) % agents.length) ("", "")).1
          (agents.getD ((idx + j) % agents.length) ("", "")).2 t
          (clock (idx + j))) := by
  intro ts
  induction ts with
  | nil => intro idx j; simp [assignFrom]
  | cons t ts ih =>
    intro idx j
    cases j with
    | zero => simp [assignFrom]
    | succ j =>
      rw [assignFrom, List.getElem?_cons_succ, List.getElem?_cons_succ, ih]
      have heq : idx + 1 + j = idx + (j + 1) := by omega
      rw [heq]

theorem agents_key_inj (agents : List (String × String))
    (hnd : (agents.map Prod.fst).Nodup) (i j : ℕ)
    (hi : i < agents.length) (hj : j < agents.length)
    (h : (agents.getD i ("", "")).1 = (agents.getD j ("", "")).1) : i = j := by
  have hi2 : i < (agents.map Prod.fst).length := by simpa using hi
  have hj2 : j < (agents.map Prod.fst).length := by simpa using hj
  have hgi : (agents.getD i ("", "")).1 = (agents.map Prod.fst).get ⟨i, hi2⟩ := by
    rw [List.getD_eq_getElem?_getD, List.getElem?_eq_getElem hi]
    simp
  have hgj : (agents.getD j ("", "")).1 = (agents.map Prod.fst).get ⟨j, hj2⟩ := by
    rw [List.getD_eq_getElem?_getD, List.getElem?_eq_getElem hj]
    simp
  rw [hgi, hgj] at h
  simpa using hnd.get_inj_iff.mp h

theorem assignFrom_count (agents : List (String × String)) (clock : ℕ → ℕ)
    (hnd : (agents.map Prod.fst).Nodup) (j : ℕ) (hj : j < agents.length) :
    ∀ (ts : List Task) (idx : ℕ),
      ((assignFrom agents clock idx ts).filter
        (fun a => a.agent_id == (agents.getD j ("", "")).1)).length =
      ((List.range ts.length).filter
        (fun i => (idx + i) % agents.length == j)).length := by
  have hM : 0 < agents.length := lt_of_le_of_lt (Nat.zero_le j) hj
  intro ts
  induction ts with
  | nil => intro idx; rfl
  | cons t ts ih =>
    intro idx
    have hhead : assignFrom agents clock idx (t :: ts) =
        AgentAssignment.new (agents.getD (idx % agents.length) ("", "")).1
          (agents.getD (idx % agents.length) ("", "")).2 t (clock idx) ::
        assignFrom agents clock (idx + 1) ts := rfl
    have hR : ((List.range (t :: ts).length).filter
        (fun i => (idx + i) % agents.length == j)).length =
        ((List.range ts.length).filter
          (fun i => ((idx + 1) + i) % agents.length == j)).length +
        (if idx % agents.length = j then 1 else 0) := by
      rw [List.length_cons, List.range_succ_eq_map, List.filter_cons,
        List.filter_map]
      have hshift : ((fun i => (idx + i) % agents.length == j) ∘ Nat.succ) =
          (fun i => ((idx + 1) + i) % agents.length == j) := by
        funext i
        simp only [Function.comp]
        rw [show idx + Nat.succ i = (idx + 1) + i by omega]
      rw [hshift]
      by_cases hc : idx % agents.length = j
      · rw [if_pos (by simp [hc]), if_pos hc]
        simp
      · rw [if_neg (by simp [hc]), if_neg hc]
        simp
    have hL : ((assignFrom agents clock idx (t :: ts)).filter
        (fun a => a.agent_id == (agents.getD j ("", "")).1)).length =
        ((assignFrom agents clock (idx + 1) ts).filter
          (fun a => a.agent_id == (agents.getD j ("", "")).1)).length +
        (if idx % agents.length = j then 1 else 0) := by
      rw [hhead, List.filter_cons]
      by_cases hc : idx % agents.length = j
      · rw [if_pos (by simp [AgentAssignment.new, hc]), if_pos hc]
        simp
      · have hne : (agents.getD (idx % agents.length) ("", "")).1 ≠
            (agents.getD j ("", "")).1 := fun hcc =>
          hc (agents_key_inj agents hnd _ j (Nat.mod_lt idx hM) hj hcc)
        rw [if_neg (by simp only [AgentAssignment.new, beq_iff_eq]; exact hne),
          if_neg hc]
        simp
    rw [hL, hR, ih (idx + 1)]

theorem range_modCount (M j : ℕ) (hj : j < M) : ∀ N : ℕ,
    ((List.range N).filter (fun i => i % M == j)).length =
      N / M + (if j < N % M then 1 else 0) := by
  have hM : 0 < M := lt_of_le_of_lt (Nat.zero_le j) hj
  intro N
  induction N with
  | zero => simp
  | succ N ih =>
    rw [List.range_succ, List.filter_append, List.length_append, ih]
    have hsingle : (List.filter (fun i => i % M == j) [N]).length =
        if N % M = j then 1 else 0 := by
      by_cases h : N % M = j <;> simp [List.filter_singleton, h]
    rw [hsingle]
    rcases Nat.lt_or_ge (N % M + 1) M with hr | hr
    · have hdiv : (N + 1) / M = N / M := by
        conv_lhs => rw [← Nat.div_add_mod N M]
        rw [show M * (N / M) + N % M + 1 = M * (N / M) + (N % M + 1) by omega,
          Nat.mul_add_div hM, Nat.div_eq_of_lt hr, Nat.add_zero]
      have hmod : (N + 1) % M = N % M + 1 := by
        conv_lhs => rw [← Nat.div_add_mod N M]
        rw [show M * (N / M) + N % M + 1 = M * (N / M) + (N % M + 1) by omega,
          Nat.mul_add_mod, Nat.mod_eq_of_lt hr]
      rw [hdiv, hmod]
      generalize N / M = a
      generalize N % M = b
      rcases Nat.lt_trichotomy j b with h | h | h
      · rw [if_pos h, if_neg (by omega), if_pos (by omega)]
      · rw [if_neg (by omega), if_pos h.symm, if_pos (by omega)]
      · rw [if_neg (by omega), if_neg (by omega), if_neg (by omega)]
    · have hrm : N % M + 1 = M := by
        have := Nat.mod_lt N hM
        omega
      have hdiv : (N + 1) / M = N / M + 1 := by
        conv_lhs => rw [← Nat.div_add_mod N M]
        rw [show M * (N / M) + N % M + 1 = M * (N / M + 1) by
            rw [Nat.mul_add, Nat.mul_one]; omega,
          Nat.mul_div_cancel_left _ hM]
      have hmod : (N + 1) % M = 0 := by
        conv_lhs => rw [← Nat.div_add_mod N M]
        rw [show M * (N / M) + N % M + 1 = M * (N / M + 1) by
            rw [Nat.mul_add, Nat.mul_one]; omega,
          Nat.mul_mod_right]
      rw [hdiv, hmod]
      generalize N / M = a
      generalize hb : N % M = b
      rw [hb] at hrm
      rw [if_neg (Nat.not_lt_zero j)]
      rcases Nat.lt_trichotomy j b with h | h | h
      · rw [if_pos h, if_neg (by omega)]
      · rw [if_neg (by omega), if_pos h.symm]
      · exact absurd hj (by omega)

theorem assignTasks_count (agents : List (String × String)) (clock : ℕ → ℕ)
    (hA : agents ≠ []) (hnd : (agents.map Prod.fst).Nodup) (j : ℕ)
    (hj : j < agents.length) (tasks : List Task) :
    ((assignTasks agents clock tasks).filter
      (fun a => a.agent_id == (agents.getD j ("", "")).1)).length =
    tasks.length / agents.length +
      (if j < tasks.length % agents.length then 1 else 0) := by
  rw [assignTasks_eq agents clock tasks hA,
    assignFrom_count agents clock hnd j hj tasks 0]
  have h0 : (fun i => (0 + i) % agents.length == j) =
      (fun i => i % agents.length == j) := by
    funext i
    rw [Nat.zero_add]
  rw [h0, range_modCount agents.length j hj tasks.length]

theorem ceil_div_eq (N M : ℕ) (hM : 0 < M) (hr : 0 < N % M) :
    (N + M - 1) / M = N / M + 1 := by
  have h1 : N % M < M := Nat.mod_lt N hM
  have hd : M * (N / M) + N % M = N := Nat.div_add_mod N M
  have hstep : N + M - 1 = M * (N / M + 1) + (N % M - 1) := by
    rw [Nat.mul_add, Nat.mul_one]
    omega
  rw [hstep, Nat.mul_add_div hM,
    Nat.div_eq_of_lt (show N % M - 1 < M by omega), Nat.add_zero]


/-- C3: with a non-empty worker map, `assign` produces exactly one assignment
per task, giving the task at index `i` to the worker at position
`i mod M` of the registration order; consequently each worker receives
either `⌊N/M⌋` or `⌈N/M⌉` tasks, and any two workers' assignment counts
differ by at most 1. -/
theorem round_robin_assignment (agents : List (String × String))
    (clock : ℕ → ℕ) (tasks : List Task) (hA : agents ≠ [])
    (hnd : (agents.map Prod.fst).Nodup) :
    (assignTasks agents clock tasks).length = tasks.length ∧
    (∀ i, (assignTasks agents clock tasks)[i]? = (tasks[i]?).map (fun t =>
      AgentAssignment.new (agents.getD (i % agents.length) ("", "")).1
        (agents.getD (i % agents.length) ("", "")).2 t (clock i))) ∧
    (∀ j, j < agents.length →
      ((assignTasks agents clock tasks).filter
          (fun a => a.agent_id == (agents.getD j ("", "")).1)).length =
        tasks.length / agents.length ∨
      ((assignTasks agents clock tasks).filter
          (fun a => a.agent_id == (agents.getD j ("", "")).1)).length =
        (tasks.length + agents.length - 1) / agents.length) ∧
    (∀ j1 j2, j1 < agents.length → j2 < agents.length →
      ((assignTasks agents clock tasks).filter
          (fun a => a.agent_id == (agents.getD j1 ("", "")).1)).length ≤
      ((assignTasks agents clock tasks).filter
          (fun a => a.agent_id == (agents.getD j2 ("", "")).1)).length + 1) := by
  have hM : 0 < agents.length := List.length_pos.mpr hA
  refine ⟨?_, ?_, ?_, ?_⟩
  · rw [assignTasks_eq agents clock tasks hA]
    exact assignFrom_length agents clock 0 tasks
  · intro i
    rw [assignTasks_eq agents clock tasks hA]
    simpa using assignFrom_getElem agents clock tasks 0 i
  · intro j hj
    rw [assignTasks_count agents clock hA hnd j hj tasks]
    by_cases hc : j < tasks.length % agents.length
    · right
      rw [if_pos hc, ceil_div_eq tasks.length agents.length hM (by omega)]
    · left
      rw [if_neg hc, Nat.add_zero]
  · intro j1 j2 hj1 hj2
    rw [assignTasks_count agents clock hA hnd j1 hj1 tasks,
      assignTasks_count agents clock hA hnd j2 hj2 tasks]
    generalize tasks.length / agents.length = q
    generalize tasks.length % agents.length = r
    by_cases h1 : j1 < r <;> by_cases h2 : j2 < r <;> simp [h1, h2] <;>
      try omega

/-- Witness for C3: two workers, three tasks. -/
theorem round_robin_assignment_witness :
    ([("AgentA", "u1"), ("AgentB", "u2")] : List (String × String)) ≠ [] ∧
    (([("AgentA", "u1"), ("AgentB", "u2")] : List (String × String)).map
      Prod.fst).Nodup ∧
    ((assignTasks [("AgentA", "u1"), ("AgentB", "u2")] (fun i => i)
        [⟨"task_1_0", "Analyze data patterns", 1/2, 25, "pending"⟩,
         ⟨"task_1_1", "Process large dataset", 3/10, 15, "pending"⟩,
         ⟨"task_1_2", "Validate system integrity", 1, 50, "pending"⟩]).length =
      ([⟨"task_1_0", "Analyze data patterns", 1/2, 25, "pending"⟩,
        ⟨"task_1_1", "Process large dataset", 3/10, 15, "pending"⟩,
        ⟨"task_1_2", "Validate system integrity", 1, 50, "pending"⟩] :
          List Task).length ∧
    (∀ i, (assignTasks [("AgentA", "u1"), ("AgentB", "u2")] (fun i => i)
        [⟨"task_1_0", "Analyze data patterns", 1/2, 25, "pending"⟩,
         ⟨"task_1_1", "Process large dataset", 3/10, 15, "pending"⟩,
         ⟨"task_1_2", "Validate system integrity", 1, 50, "pending"⟩])[i]? =
      (([⟨"task_1_0", "Analyze data patterns", 1/2, 25, "pending"⟩,
         ⟨"task_1_1", "Process large dataset", 3/10, 15, "pending"⟩,
         ⟨"task_1_2", "Validate system integrity", 1, 50, "pending"⟩] :
           List Task)[i]?).map (fun t =>
        AgentAssignment.new
          (([("AgentA", "u1"), ("AgentB", "u2")] :
            List (String × String)).getD (i % 2) ("", "")).1
          (([("AgentA", "u1"), ("AgentB", "u2")] :
            List (String × String)).getD (i % 2) ("", "")).2 t i)) ∧
    (∀ j, j < 2 →
      ((assignTasks [("AgentA", "u1"), ("AgentB", "u2")] (fun i => i)
          [⟨"task_1_0", "Analyze data patterns", 1/2, 25, "pending"⟩,
           ⟨"task_1_1", "Process large dataset", 3/10, 15, "pending"⟩,
           ⟨"task_1_2", "Validate system integrity", 1, 50, "pending"⟩]).filter
          (fun a => a.agent_id ==
            (([("AgentA", "u1"), ("AgentB", "u2")] :
              List (String × String)).getD j ("", "")).1)).length = 3 / 2 ∨
      ((assignTasks [("AgentA", "u1"), ("AgentB", "u2")] (fun i => i)
          [⟨"task_1_0", "Analyze data patterns", 1/2, 25, "pending"⟩,
           ⟨"task_1_1", "Process large dataset", 3/10, 15, "pending"⟩,
           ⟨"task_1_2", "Validate system integrity", 1, 50, "pending"⟩]).filter
          (fun a => a.agent_id ==
            (([("AgentA", "u1"), ("AgentB", "u2")] :
              List (String × String)).getD j ("", "")).1)).length =
        (3 + 2 - 1) / 2) ∧
    (∀ j1 j2, j1 < 2 → j2 < 2 →
      ((assignTasks [("AgentA", "u1"), ("AgentB", "u2")] (fun i => i)
          [⟨"task_1_0", "Analyze data patterns", 1/2, 25, "pending"⟩,
           ⟨"task_1_1", "Process large dataset", 3/10, 15, "pending"⟩,
           ⟨"task_1_2", "Validate system integrity", 1, 50, "pending"⟩]).filter
          (fun a => a.agent_id ==
            (([("AgentA", "u1"), ("AgentB", "u2")] :
              List (String × String)).getD j1 ("", "")).1)).length ≤
      ((assignTasks [("AgentA", "u1"), ("AgentB", "u2")] (fun i => i)
          [⟨"task_1_0", "Analyze data patterns", 1/2, 25, "pending"⟩,
           ⟨"task_1_1", "Process large dataset", 3/10, 15, "pending"⟩,
           ⟨"task_1_2", "Validate system integrity", 1, 50, "pending"⟩]).filter
          (fun a => a.agent_id ==
            (([("AgentA", "u1"), ("AgentB", "u2")] :
              List (String × String)).getD j2 ("", "")).1)).length + 1)) :=
  ⟨by simp, by simp, round_robin_assignment
    [("AgentA", "u1"), ("AgentB", "u2")] (fun i => i)
    [⟨"task_1_0", "Analyze data patterns", 1/2, 25, "pending"⟩,
     ⟨"task_1_1", "Process large dataset", 3/10, 15, "pending"⟩,
     ⟨"task_1_2", "Validate system integrity", 1, 50, "pending"⟩]
    (by simp) (by simp)⟩

/-- C9: the assignment output depends only on the registered worker map (and
the input task sequence): two controllers with the same worker registration
but arbitrarily different economy, histories, cycle counter and random-module
state produce the identical assignment sequence.  The strategy itself
consumes no randomness. -/
theorem assignment_determinism (c1 c2 : Controller) (clock : ℕ → ℕ)
    (tasks : List Task) (h : c1.agents = c2.agents) :
    (Controller.assign c1 clock tasks).2 = (Controller.assign c2 clock tasks).2 := by
  simp [Controller.assign, assignTasks, assignPair, h]

/-- Witness for C9: controllers sharing the worker map but differing in
economy, cycle counter and random state. -/
theorem assignment_determinism_witness :
    (⟨[("AgentA", "u1"), ("AgentB", "u2")], Economy.new, [], [], 0, 0⟩ :
      Controller).agents =
    (⟨[("AgentA", "u1"), ("AgentB", "u2")],
      Economy.new.initialize_agent "AgentA" 100, [], [], 7, 42⟩ :
      Controller).agents ∧
    (Controller.assign
      (⟨[("AgentA", "u1"), ("AgentB", "u2")], Economy.new, [], [], 0, 0⟩ :
        Controller) (fun i => i)
      [⟨"task_1_0", "Analyze data patterns", 1/2, 25, "pending"⟩]).2 =
    (Controller.assign
      (⟨[("AgentA", "u1"), ("AgentB", "u2")],
        Economy.new.initialize_agent "AgentA" 100, [], [], 7, 42⟩ :
        Controller) (fun i => i)
      [⟨"task_1_0", "Analyze data patterns", 1/2, 25, "pending"⟩]).2 :=
  ⟨rfl, assignment_determinism _ _ _ _ rfl⟩

/-- C6: with an empty worker map, `assign` returns the empty assignment list
together with the explicit "No agents available for assignment" diagnostic,
and the cycle still runs dispatch, evaluation and the ledger update on the
zero-length result set: the evaluation reports `total = 0`,
`successful = 0`, `failed = 0` and `success_rate = 0`, and the economy is
unchanged. -/
theorem no_workers_cycle (c : Controller) (num_tasks : ℕ) (draws : ℕ → ℚ)
    (descs : ℕ → String) (aclock : ℕ → ℕ) (env : ℕ → DispatchOutcome)
    (eclock : ℕ → ℕ) (tasks : List Task) (h : c.agents = []) :
    assignPair c.agents aclock tasks =
      ([], ["No agents available for assignment"]) ∧
    (run_cycle c num_tasks draws descs aclock env eclock).2.2 =
      ["No agents available for assignment"] ∧
    (run_cycle c num_tasks draws descs aclock env eclock).2.1.total_tasks = 0 ∧
    (run_cycle c num_tasks draws descs aclock env eclock).2.1.successful = 0 ∧
    (run_cycle c num_tasks draws descs aclock env eclock).2.1.failed = 0 ∧
    (run_cycle c num_tasks draws descs aclock env eclock).2.1.success_rate = 0 ∧
    (run_cycle c num_tasks draws descs aclock env eclock).1.economy =
      c.economy := by
  refine ⟨by simp [assignPair, h], ?_, ?_, ?_, ?_, ?_, ?_⟩
  all_goals
    simp [run_cycle, assignPair, h, execute, executeFrom, evaluate,
      update_economy, round2_zero]

/-- Witness for C6: a controller with no registered workers. -/
theorem no_workers_cycle_witness :
    (⟨[], Economy.new.initialize_agent "X" 100, [], [], 0, 0⟩ :
      Controller).agents = ([] : List (String × String)) ∧
    (assignPair (⟨[], Economy.new.initialize_agent "X" 100, [], [], 0, 0⟩ :
        Controller).agents (fun i => i) [] =
      ([], ["No agents available for assignment"]) ∧
    (run_cycle (⟨[], Economy.new.initialize_agent "X" 100, [], [], 0, 0⟩ :
        Controller) 5 (fun _ => 1/2) (fun _ => "Analyze data patterns")
        (fun i => i) (fun _ => .timeout) (fun i => i)).2.2 =
      ["No agents available for assignment"] ∧
    (run_cycle (⟨[], Economy.new.initialize_agent "X" 100, [], [], 0, 0⟩ :
        Controller) 5 (fun _ => 1/2) (fun _ => "Analyze data patterns")
        (fun i => i) (fun _ => .timeout) (fun i => i)).2.1.total_tasks = 0 ∧
    (run_cycle (⟨[], Economy.new.initialize_agent "X" 100, [], [], 0, 0⟩ :
        Controller) 5 (fun _ => 1/2) (fun _ => "Analyze data patterns")
        (fun i => i) (fun _ => .timeout) (fun i => i)).2.1.successful = 0 ∧
    (run_cycle (⟨[], Economy.new.initialize_agent "X" 100, [], [], 0, 0⟩ :
        Controller) 5 (fun _ => 1/2) (fun _ => "Analyze data patterns")
        (fun i => i) (fun _ => .timeout) (fun i => i)).2.1.failed = 0 ∧
    (run_cycle (⟨[], Economy.new.initialize_agent "X" 100, [], [], 0, 0⟩ :
        Controller) 5 (fun _ => 1/2) (fun _ => "Analyze data patterns")
        (fun i => i) (fun _ => .timeout) (fun i => i)).2.1.success_rate = 0 ∧
    (run_cycle (⟨[], Economy.new.initialize_agent "X" 100, [], [], 0, 0⟩ :
        Controller) 5 (fun _ => 1/2) (fun _ => "Analyze data patterns")
        (fun i => i) (fun _ => .timeout) (fun i => i)).1.economy =
      (⟨[], Economy.new.initialize_agent "X" 100, [], [], 0, 0⟩ :
        Controller).economy) :=
  ⟨rfl, no_workers_cycle _ 5 (fun _ => 1/2) (fun _ => "Analyze data patterns")
    (fun i => i) (fun _ => .timeout) (fun i => i) [] rfl⟩


/-! ### Decimal rendering of task identifiers -/

/-- Value of a decimal digit string (inverse of `natToDec`). -/
def decValue (cs : List Char) : ℕ :=
  cs.foldl (fun acc c => acc * 10 + (c.toNat - 48)) 0

theorem decDigit_ne_underscore (d : ℕ) : decDigit d ≠ '_' := by
  unfold decDigit
  split_ifs <;> decide

theorem decDigit_toNat (d : ℕ) (h : d < 10) : (decDigit d).toNat = 48 + d := by
  interval_cases d <;> rfl

theorem natToDecAux_base (n : ℕ) (acc : List Char) (h : n < 10) :
    natToDecAux n acc = decDigit n :: acc := by
  rw [natToDecAux, dif_pos h]

theorem natToDecAux_step (n : ℕ) (acc : List Char) (h : ¬n < 10) :
    natToDecAux n acc = natToDecAux (n / 10) (decDigit (n % 10) :: acc) := by
  rw [natToDecAux, dif_neg h]

theorem natToDecAux_eq_append : ∀ (n : ℕ) (acc : List Char),
    natToDecAux n acc = natToDecAux n [] ++ acc := by
  intro n
  induction n using Nat.strong_induction_on with
  | _ n ih =>
    intro acc
    by_cases h : n < 10
    · rw [natToDecAux_base n acc h, natToDecAux_base n [] h]
      rfl
    · have hlt : n / 10 < n := Nat.div_lt_self (by omega) (by omega)
      rw [natToDecAux_step n acc h, natToDecAux_step n [] h,
        ih _ hlt (decDigit (n % 10) :: acc), ih _ hlt [decDigit (n % 10)],
        List.append_assoc]
      rfl

theorem natToDec_base (n : ℕ) (h : n < 10) : natToDec n = [decDigit n] := by
  rw [natToDec, natToDecAux_base n [] h]

theorem natToDec_step (n : ℕ) (h : ¬n < 10) :
    natToDec n = natToDec (n / 10) ++ [decDigit (n % 10)] := by
  rw [natToDec, natToDecAux_step n [] h,
    natToDecAux_eq_append (n / 10) [decDigit (n % 10)]]
  rfl

theorem natToDec_ne_underscore : ∀ n : ℕ, ∀ c ∈ natToDec n, c ≠ '_' := by
  intro n
  induction n using Nat.strong_induction_on with
  | _ n ih =>
    intro c hc
    by_cases h : n < 10
    · rw [natToDec_base n h] at hc
      simp at hc
      subst hc
      exact decDigit_ne_underscore n
    · rw [natToDec_step n h] at hc
      rcases List.mem_append.mp hc with h1 | h2
      · exact ih _ (Nat.div_lt_self (by omega) (by omega)) c h1
      · simp at h2
        subst h2
        exact decDigit_ne_underscore _

theorem decValue_natToDec : ∀ n : ℕ, decValue (natToDec n) = n := by
  intro n
  induction n using Nat.strong_induction_on with
  | _ n ih =>
    by_cases h : n < 10
    · rw [natToDec_base n h,
        show decValue [decDigit n] = 0 * 10 + ((decDigit n).toNat - 48) from rfl,
        decDigit_toNat n h]
      omega
    · rw [natToDec_step n h]
      have hone : decValue (natToDec (n / 10) ++ [decDigit (n % 10)]) =
          decValue (natToDec (n / 10)) * 10 + ((decDigit (n % 10)).toNat - 48) := by
        rw [decValue, decValue, List.foldl_append]
        rfl
      rw [hone, ih _ (Nat.div_lt_self (by omega) (by omega)),
        decDigit_toNat _ (Nat.mod_lt n (by omega))]
      omega

theorem natToDec_inj (m n : ℕ) (h : natToDec m = natToDec n) : m = n := by
  have h2 := decValue_natToDec m
  rw [h, decValue_natToDec n] at h2
  omega

theorem natToStr_data (n : ℕ) : (natToStr n).data = natToDec n := rfl

theorem append_sep_inj : ∀ (xs xs2 ys ys2 : List Char),
    (∀ c ∈ xs, c ≠ '_') → (∀ c ∈ xs2, c ≠ '_') →
    xs ++ '_' :: ys = xs2 ++ '_' :: ys2 → xs = xs2 ∧ ys = ys2 := by
  intro xs
  induction xs with
  | nil =>
    intro xs2 ys ys2 hx hx2 h
    cases xs2 with
    | nil => simpa using h
    | cons b bs =>
      simp at h
      exact absurd h.1.symm (hx2 b (by simp))
  | cons a as ih =>
    intro xs2 ys ys2 hx hx2 h
    cases xs2 with
    | nil =>
      simp at h
      exact absurd h.1 (hx a (by simp))
    | cons b bs =>
      simp at h
      obtain ⟨h1, h2⟩ := h
      obtain ⟨hA, hB⟩ := ih bs ys ys2 (fun c hc => hx c (by simp [hc]))
        (fun c hc => hx2 c (by simp [hc])) h2
      exact ⟨by rw [h1, hA], hB⟩

theorem taskId_inj (c1 i1 c2 i2 : ℕ) (h : taskId c1 i1 = taskId c2 i2) :
    c1 = c2 ∧ i1 = i2 := by
  rw [taskId, taskId] at h
  have hdata := congrArg String.data h
  simp only [String.data_append, natToStr_data] at hdata
  simp at hdata
  obtain ⟨hA, hB⟩ := append_sep_inj (natToDec c1) (natToDec c2) (natToDec i1)
    (natToDec i2) (natToDec_ne_underscore c1) (natToDec_ne_underscore c2) hdata
  exact ⟨natToDec_inj _ _ hA, natToDec_inj _ _ hB⟩

/-! ### Bounds on `round2` -/

theorem roundHalfEven_ub (q : ℚ) (hi : ℤ) (hhi : q ≤ hi) :
    roundHalfEven q ≤ hi := by
  have hfl : ⌊q⌋ ≤ hi := by
    have h2 := Int.floor_le_floor hhi
    rwa [Int.floor_intCast] at h2
  have hf : (⌊q⌋ : ℚ) ≤ q := Int.floor_le q
  rw [roundHalfEven]
  split_ifs with h1 h2 h3
  · exact hfl
  · have hlt : (⌊q⌋ : ℚ) < hi := by linarith
    have hlt2 : ⌊q⌋ < hi := by exact_mod_cast hlt
    omega
  · exact hfl
  · push_neg at h1
    have hlt : (⌊q⌋ : ℚ) < hi := by linarith
    have hlt2 : ⌊q⌋ < hi := by exact_mod_cast hlt
    omega

theorem roundHalfEven_lb (q : ℚ) (lo : ℤ) (hlo : (lo : ℚ) ≤ q) :
    lo ≤ roundHalfEven q := by
  have h0 : lo ≤ ⌊q⌋ := Int.le_floor.mpr hlo
  rw [roundHalfEven]
  split_ifs <;> omega

theorem round2_mem_unit (x : ℚ) (h1 : (1/10 : ℚ) ≤ x) (h2 : x ≤ 1) :
    (1/10 : ℚ) ≤ round2 x ∧ round2 x ≤ 1 := by
  have hl : (10 : ℤ) ≤ roundHalfEven (x * 100) :=
    roundHalfEven_lb (x * 100) 10 (by push_cast; linarith)
  have hu : roundHalfEven (x * 100) ≤ (100 : ℤ) :=
    roundHalfEven_ub (x * 100) 100 (by push_cast; linarith)
  have hlq : (10 : ℚ) ≤ (roundHalfEven (x * 100) : ℚ) := by exact_mod_cast hl
  have huq : (roundHalfEven (x * 100) : ℚ) ≤ 100 := by exact_mod_cast hu
  rw [round2]
  constructor <;> [linarith; linarith]

/-- C8: `generate_tasks` returns exactly the requested number of tasks; when
every `random.uniform(0.1, 1.0)` draw lies in `[0.1, 1]`, each task's
complexity lies in `[0.1, 1]` and is an exact multiple of 1/100 (2 decimal
places), its reward is `round(complexity * 50, 2)`, the `i`-th task of cycle
`c` has identifier `task_{c}_{i}`, and the identifier encoding is injective,
so identifiers are unique across the controller's lifetime as long as cycles
are numbered distinctly. -/
theorem generate_tasks_values (cycle_count num_tasks : ℕ) (draws : ℕ → ℚ)
    (descs : ℕ → String)
    (hd : ∀ i, (1/10 : ℚ) ≤ draws i ∧ draws i ≤ 1) :
    (generate_tasks cycle_count num_tasks draws descs).length = num_tasks ∧
    (∀ t ∈ generate_tasks cycle_count num_tasks draws descs,
      (1/10 : ℚ) ≤ t.complexity ∧ t.complexity ≤ 1 ∧
      (∃ k : ℤ, t.complexity = (k : ℚ) / 100) ∧
      t.reward = round2 (t.complexity * 50)) ∧
    (generate_tasks cycle_count num_tasks draws descs).map Task.task_id =
      (List.range num_tasks).map (taskId cycle_count) ∧
    (∀ c1 i1 c2 i2 : ℕ, taskId c1 i1 = taskId c2 i2 → c1 = c2 ∧ i1 = i2) := by
  refine ⟨by simp [generate_tasks], ?_, ?_, taskId_inj⟩
  · intro t ht
    rw [generate_tasks] at ht
    obtain ⟨i, hi, rfl⟩ := List.mem_map.mp ht
    obtain ⟨h1, h2⟩ := round2_mem_unit (draws i) (hd i).1 (hd i).2
    exact ⟨h1, h2, ⟨roundHalfEven (draws i * 100), rfl⟩, rfl⟩
  · simp [generate_tasks]

/-- Witness for C8: cycle 1, two tasks, all draws equal to 1/2. -/
theorem generate_tasks_values_witness :
    (∀ i : ℕ, (1/10 : ℚ) ≤ (fun _ : ℕ => (1/2 : ℚ)) i ∧
      (fun _ : ℕ => (1/2 : ℚ)) i ≤ 1) ∧
    ((generate_tasks 1 2 (fun _ => 1/2)
        (fun _ => "Analyze data patterns")).length = 2 ∧
    (∀ t ∈ generate_tasks 1 2 (fun _ => 1/2)
        (fun _ => "Analyze data patterns"),
      (1/10 : ℚ) ≤ t.complexity ∧ t.complexity ≤ 1 ∧
      (∃ k : ℤ, t.complexity = (k : ℚ) / 100) ∧
      t.reward = round2 (t.complexity * 50)) ∧
    (generate_tasks 1 2 (fun _ => 1/2)
        (fun _ => "Analyze data patterns")).map Task.task_id =
      (List.range 2).map (taskId 1) ∧
    (∀ c1 i1 c2 i2 : ℕ, taskId c1 i1 = taskId c2 i2 → c1 = c2 ∧ i1 = i2)) :=
  ⟨fun i => by norm_num,
   generate_tasks_values 1 2 (fun _ => 1/2) (fun _ => "Analyze data patterns")
     (fun i => by norm_num)⟩

end Flowing
